import Mathlib

/-!
Verification of the Parsons-puzzle proof-sequence validation engine
(`src/utils/ProofValidator.js`).  The JavaScript class is shallowly embedded:
ids are an arbitrary type with decidable equality (the source compares ids
only with `===`), JS `Set`/`Map` become insertion-order association lists,
and the floating-point score arithmetic is modelled over `ℚ` with
`Math.round x = ⌊x + 1/2⌋`.
-/

namespace ParsonsPuzzle

/-- A proof block as stored in `puzzle.blocks`: an id and its LaTeX payload. -/
structure Block (α : Type) where
  id : α
  latex : String
  deriving DecidableEq

/-- A puzzle as consumed by the `ProofValidator` constructor: display
metadata, the block catalog, and `solutionOrder`, the list of block ids in
the correct order. -/
structure Puzzle (α : Type) where
  id : String
  title : String
  blocks : List (Block α)
  solutionOrder : List α
  deriving DecidableEq

/-- The spec's Puzzle invariant (§3 data model / §4.1 construction contract):
nonempty, duplicate-free canonical order, duplicate-free catalog ids, and the
canonical ids and catalog ids coincide (bijection). -/
def Puzzle.wellFormed {α : Type} [DecidableEq α] (p : Puzzle α) : Prop :=
  p.solutionOrder ≠ [] ∧
  p.solutionOrder.Nodup ∧
  (p.blocks.map Block.id).Nodup ∧
  (∀ i ∈ p.solutionOrder, i ∈ p.blocks.map Block.id) ∧
  (∀ i ∈ p.blocks.map Block.id, i ∈ p.solutionOrder)

instance {α : Type} [DecidableEq α] (p : Puzzle α) : Decidable p.wellFormed := by
  unfold Puzzle.wellFormed; infer_instance

/-- Boolean list membership; stands in for JS `Array.includes` / `Set.has` /
`Map.has`, all of which use `===` on ids. -/
def listHas {α : Type} [DecidableEq α] (l : List α) (a : α) : Bool :=
  decide (a ∈ l)

/-- The element list of `new Set(l)` in JavaScript: duplicates removed,
keeping the first occurrence of each element, in insertion order. -/
def jsSetOfList {α : Type} [DecidableEq α] (l : List α) : List α :=
  (l.reverse.dedup).reverse

/-- Lookup of `new Map(kvs).get k`: the value of the last pair with key `k`
(later `set`s overwrite earlier ones), or `none`. -/
def jsMapGet {α β : Type} [DecidableEq α] : List (α × β) → α → Option β
  | [], _ => none
  | (k, v) :: rest, a =>
    match jsMapGet rest a with
    | some w => some w
    | none => if k = a then some v else none

/-- A correctly positioned entry pushed by `_analyzeSequence`. -/
structure PosOk (α : Type) where
  blockId : α
  position : Nat
  deriving DecidableEq

/-- An incorrectly positioned entry pushed by `_analyzeSequence`. -/
structure PosBad (α : Type) where
  blockId : α
  position : Nat
  expectedBlockId : α
  deriving DecidableEq

/-- A duplicate occurrence recorded by `_findDuplicates`. -/
structure DupEntry (α : Type) where
  blockId : α
  position : Nat
  deriving DecidableEq

/-- The record returned by `_analyzeSequence`. -/
structure Analysis (α : Type) where
  totalBlocks : Nat
  userBlocks : Nat
  correctBlocks : Nat
  extraBlocks : Nat
  missingBlocks : Nat
  isComplete : Bool
  correctSequence : Bool
  correctlyPositioned : List (PosOk α)
  incorrectlyPositioned : List (PosBad α)
  duplicates : List (DupEntry α)
  deriving DecidableEq

/-- A hint object produced by `_generateHints`.  The JS objects carry
different key sets per hint type; absent keys are `none`. -/
structure Hint (α : Type) where
  type : String
  message : String
  latex : String
  blockId : Option α := none
  position : Option Nat := none
  expectedBlockId : Option α := none
  deriving DecidableEq

/-- The fragment id a hint refers to: `blockId` for missing/next/error hints,
`expectedBlockId` for position hints (`none` for the error hint, whose
`blockId` is `null`). -/
def Hint.refId {α : Type} (h : Hint α) : Option α :=
  match h.blockId with
  | some b => some b
  | none => h.expectedBlockId

/-- The `details` field of a validation result.  `validateProof` returns one
of three differently-shaped objects: the fixed empty-input counts, the fixed
puzzle-mismatch counts, or the full analysis record. -/
inductive ResultDetails (α : Type) where
  | emptyOrder (totalBlocks correctBlocks incorrectBlocks missingBlocks extraBlocks : Nat)
  | puzzleMismatch (totalBlocks correctBlocks incorrectBlocks missingBlocks extraBlocks : Nat)
      (invalidBlocks : List α)
  | analysis (a : Analysis α)
  deriving DecidableEq

/-- The object returned by `validateProof`.  The empty-input branch of the
source returns an object with no `hints` key at all; `hints` is therefore an
`Option`, with `none` for that branch. -/
structure ValidationResult (α : Type) where
  isCorrect : Bool
  score : ℤ
  feedback : String
  details : ResultDetails α
  hints : Option (List (Hint α))
  deriving DecidableEq

/-- Result of `validateBlockIds`. -/
structure BlockIdValidation (α : Type) where
  isValid : Bool
  invalidBlocks : List α
  validBlocks : List α
  puzzleId : String
  puzzleTitle : String
  deriving DecidableEq

/-- The validator instance built by the `ProofValidator` constructor. -/
structure ProofValidator (α : Type) where
  puzzle : Puzzle α
  solutionOrder : List α
  blockMap : List (α × Block α)

/-- The `ProofValidator` constructor: stores the puzzle, its solution order,
and the id → block map.  It performs no validation of the puzzle. -/
def ProofValidator.make {α : Type} (p : Puzzle α) : ProofValidator α :=
  { puzzle := p
    solutionOrder := p.solutionOrder
    blockMap := p.blocks.map (fun b => (b.id, b)) }

/-- Embeds `validateBlockIds`: partitions the user order by membership in the
catalog's id set. -/
def ProofValidator.validateBlockIds {α : Type} [DecidableEq α]
    (v : ProofValidator α) (userOrder : List α) : BlockIdValidation α :=
  let validBlockIds := jsSetOfList (v.puzzle.blocks.map Block.id)
  let invalidBlocks := userOrder.filter (fun i => !(listHas validBlockIds i))
  let validBlocks := userOrder.filter (fun i => listHas validBlockIds i)
  { isValid := invalidBlocks.length == 0
    invalidBlocks := invalidBlocks
    validBlocks := validBlocks
    puzzleId := v.puzzle.id
    puzzleTitle := v.puzzle.title }

/-- Embeds `_isCorrectSequence(userOrder, 0, userOrder.length)`: every index `i` of
the user order satisfies `i < solutionOrder.length` and
`userOrder[i] = solutionOrder[i]`.  First argument is the solution order. -/
def ProofValidator.isCorrectSeq {α : Type} [DecidableEq α] :
    List α → List α → Bool
  | _, [] => true
  | [], _ :: _ => false
  | s :: ss, u :: us => decide (u = s) && ProofValidator.isCorrectSeq ss us

/-- The scan in `getNextExpectedBlock` that returns the solution id at the
first index where the current order diverges from it (`none` if no
divergence within the current order; the solution-exhausted case is
unreachable at the call site, which checks the lengths first). -/
def ProofValidator.firstMismatch {α : Type} [DecidableEq α] :
    List α → List α → Option α
  | _, [] => none
  | [], _ :: _ => none
  | s :: ss, c :: cs => if c = s then ProofValidator.firstMismatch ss cs else some s

/-- Embeds `getNextExpectedBlock`. -/
def ProofValidator.getNextExpectedBlock {α : Type} [DecidableEq α]
    (v : ProofValidator α) (currentOrder : List α) : Option α :=
  if v.solutionOrder.length ≤ currentOrder.length then none
  else if ProofValidator.isCorrectSeq v.solutionOrder currentOrder then
    v.solutionOrder[currentOrder.length]?
  else ProofValidator.firstMismatch v.solutionOrder currentOrder

/-- The position-classification loop of `_analyzeSequence`: runs over the
first `min (user.length) (solution.length)` indices (starting at index `i`),
returning the correctly- and incorrectly-positioned entry lists. -/
def ProofValidator.classifyPositions {α : Type} [DecidableEq α] :
    Nat → List α → List α → List (PosOk α) × List (PosBad α)
  | _, [], _ => ([], [])
  | _, _ :: _, [] => ([], [])
  | i, u :: us, s :: ss =>
    let rest := ProofValidator.classifyPositions (i + 1) us ss
    if u = s then (⟨u, i⟩ :: rest.1, rest.2)
    else (rest.1, ⟨u, i, s⟩ :: rest.2)

/-- Embeds `_findDuplicates`: flags every repeated occurrence with its position. -/
def ProofValidator.findDuplicatesAux {α : Type} [DecidableEq α] :
    Nat → List α → List α → List (DupEntry α)
  | _, _, [] => []
  | i, seen, x :: xs =>
    if x ∈ seen then ⟨x, i⟩ :: ProofValidator.findDuplicatesAux (i + 1) seen xs
    else ProofValidator.findDuplicatesAux (i + 1) (x :: seen) xs

/-- Embeds the `_findDuplicates` entry point. -/
def ProofValidator.findDuplicates {α : Type} [DecidableEq α]
    (userOrder : List α) : List (DupEntry α) :=
  ProofValidator.findDuplicatesAux 0 [] userOrder

/-- Embeds `_analyzeSequence`. -/
def ProofValidator.analyzeSequence {α : Type} [DecidableEq α]
    (v : ProofValidator α) (userOrder : List α) : Analysis α :=
  let solutionSet := jsSetOfList v.solutionOrder
  let userSet := jsSetOfList userOrder
  let correctBlocksInSolution := (userSet.filter (fun i => listHas solutionSet i)).length
  let extraBlocks := (userSet.filter (fun i => !(listHas solutionSet i))).length
  let missingBlocks := (solutionSet.filter (fun i => !(listHas userSet i))).length
  let isComplete := userOrder.length == v.solutionOrder.length &&
    missingBlocks == 0 && extraBlocks == 0
  let correctSequence := isComplete &&
    ProofValidator.isCorrectSeq v.solutionOrder userOrder
  let classified := ProofValidator.classifyPositions 0 userOrder v.solutionOrder
  { totalBlocks := v.solutionOrder.length
    userBlocks := userOrder.length
    correctBlocks := correctBlocksInSolution
    extraBlocks := extraBlocks
    missingBlocks := missingBlocks
    isComplete := isComplete
    correctSequence := correctSequence
    correctlyPositioned := classified.1
    incorrectlyPositioned := classified.2
    duplicates := ProofValidator.findDuplicates userOrder }

/-- JavaScript `Math.round` on the exact rational value: `⌊x + 1/2⌋`. -/
def jsRound (q : ℚ) : ℤ :=
  ⌊q + 1 / 2⌋

/-- Embeds `_calculateScore`.  The arithmetic is modelled exactly over `ℚ`. -/
def ProofValidator.calculateScore {α : Type} (r : Analysis α) : ℤ :=
  if r.correctSequence then 100
  else
    let positionScore : ℚ := ((r.correctlyPositioned.length : ℚ) / (r.totalBlocks : ℚ)) * 60
    let presenceScore : ℚ := ((r.correctBlocks : ℚ) / (r.totalBlocks : ℚ)) * 40
    let extraPenalty : ℚ := min ((r.extraBlocks : ℚ) * 5) 20
    max 0 (jsRound (positionScore + presenceScore - extraPenalty))

/-- Embeds `_generateFeedback`. -/
def ProofValidator.generateFeedback {α : Type} (r : Analysis α) : String :=
  if r.correctSequence then "🎉 Excellent! Your proof is completely correct!"
  else
    let feedback : List String :=
      (if r.missingBlocks > 0 then
        ["❌ Missing " ++ toString r.missingBlocks ++ " block(s) from your proof."] else []) ++
      (if r.extraBlocks > 0 then
        ["⚠️ You have " ++ toString r.extraBlocks ++ " extra or incorrect block(s)."] else []) ++
      (if r.duplicates.length > 0 then
        ["🔄 You have " ++ toString r.duplicates.length ++ " duplicate block(s)."] else []) ++
      (if r.incorrectlyPositioned.length > 0 then
        ["📍 " ++ toString r.incorrectlyPositioned.length ++ " block(s) are in the wrong position."] else []) ++
      (if r.correctlyPositioned.length > 0 then
        ["✅ " ++ toString r.correctlyPositioned.length ++ " block(s) are correctly positioned."] else [])
    if feedback.length > 0 then String.intercalate (" ") feedback
    else "Keep working on your proof!"

/-- The single hint returned by `_generateHints` on a puzzle mismatch
(`blockId: null` in the source). -/
def ProofValidator.errorHint {α : Type} : Hint α :=
  { type := "error"
    message := "Please refresh the page - there seems to be a puzzle mismatch."
    latex := ""
    blockId := none }

/-- First hint pass of `_generateHints`: one `position` hint for the first
incorrectly positioned entry, provided the expected block exists in the map
and its id is not in the used set (the used set is empty here; the source
still checks it). -/
def ProofValidator.positionHintStep {α : Type} [DecidableEq α]
    (v : ProofValidator α) (r : Analysis α)
    (hints : List (Hint α)) (used : List α) : List (Hint α) × List α :=
  match r.incorrectlyPositioned with
  | [] => (hints, used)
  | firstError :: _ =>
    match jsMapGet v.blockMap firstError.expectedBlockId with
    | none => (hints, used)
    | some expectedBlock =>
      if listHas used firstError.expectedBlockId then (hints, used)
      else
        (hints ++ [{ type := "position"
                     message := "The block at position " ++
                       toString (firstError.position + 1) ++ " should be:"
                     latex := expectedBlock.latex
                     position := some firstError.position
                     expectedBlockId := some firstError.expectedBlockId }],
         used ++ [firstError.expectedBlockId])

/-- The scan in the `missing`-hint pass: the first solution id that is not in
the user order, not in the used set, and present in the block map. -/
def ProofValidator.findFirstMissing {α : Type} [DecidableEq α]
    (v : ProofValidator α) (userOrder used : List α) : Option (α × Block α) :=
  v.solutionOrder.findSome? (fun i =>
    if !(listHas userOrder i) && !(listHas used i) then
      (jsMapGet v.blockMap i).map (fun b => (i, b))
    else none)

/-- Second hint pass of `_generateHints`: one `missing` hint (the loop breaks
after the first push). -/
def ProofValidator.missingHintStep {α : Type} [DecidableEq α]
    (v : ProofValidator α) (r : Analysis α) (userOrder : List α)
    (hints : List (Hint α)) (used : List α) : List (Hint α) × List α :=
  if r.missingBlocks > 0 ∧ hints.length < 3 then
    match ProofValidator.findFirstMissing v userOrder used with
    | none => (hints, used)
    | some (i, missingBlock) =>
      (hints ++ [{ type := "missing"
                   message := "You're missing this important step:"
                   latex := missingBlock.latex
                   blockId := some i }],
       used ++ [i])
  else (hints, used)

/-- Third hint pass of `_generateHints`: one `next` hint for the next
expected block, unless its id was already used. -/
def ProofValidator.nextHintStep {α : Type} [DecidableEq α]
    (v : ProofValidator α) (userOrder : List α)
    (hints : List (Hint α)) (used : List α) : List (Hint α) × List α :=
  if userOrder.length < v.solutionOrder.length ∧ hints.length < 3 then
    match ProofValidator.getNextExpectedBlock v userOrder with
    | none => (hints, used)
    | some nextExpected =>
      if listHas used nextExpected then (hints, used)
      else
        match jsMapGet v.blockMap nextExpected with
        | none => (hints, used)
        | some nextBlock =>
          (hints ++ [{ type := "next"
                       message := "Try adding this block next:"
                       latex := nextBlock.latex
                       blockId := some nextExpected }],
           used ++ [nextExpected])
  else (hints, used)

/-- The final fill loop of `_generateHints`: walks the remaining missing ids
and pushes `missing` hints while fewer than 3 hints exist.  The source also
adds each pushed id to the used set, which is never read afterwards. -/
def ProofValidator.fillLoop {α : Type} [DecidableEq α]
    (v : ProofValidator α) : List α → List (Hint α) → List (Hint α)
  | [], hints => hints
  | i :: rest, hints =>
    if hints.length < 3 then
      match jsMapGet v.blockMap i with
      | none => ProofValidator.fillLoop v rest hints
      | some missingBlock =>
        ProofValidator.fillLoop v rest
          (hints ++ [{ type := "missing"
                       message := "Consider this step:"
                       latex := missingBlock.latex
                       blockId := some i }])
    else hints

/-- Fourth hint pass of `_generateHints`. -/
def ProofValidator.fillMissingStep {α : Type} [DecidableEq α]
    (v : ProofValidator α) (r : Analysis α) (userOrder : List α)
    (hints : List (Hint α)) (used : List α) : List (Hint α) :=
  if hints.length < 3 ∧ r.missingBlocks > 0 then
    let missingIds := v.solutionOrder.filter
      (fun i => !(listHas userOrder i) && !(listHas used i))
    ProofValidator.fillLoop v missingIds hints
  else hints

/-- Embeds `_generateHints`. -/
def ProofValidator.generateHints {α : Type} [DecidableEq α]
    (v : ProofValidator α) (r : Analysis α) (userOrder : List α) :
    List (Hint α) :=
  if r.correctSequence then []
  else if (v.validateBlockIds userOrder).isValid = false then
    [ProofValidator.errorHint]
  else
    let s1 := ProofValidator.positionHintStep v r [] []
    let s2 := ProofValidator.missingHintStep v r userOrder s1.1 s1.2
    let s3 := ProofValidator.nextHintStep v userOrder s2.1 s2.2
    ProofValidator.fillMissingStep v r userOrder s3.1 s3.2

/-- Embeds `validateProof`. -/
def ProofValidator.validateProof {α : Type} [DecidableEq α]
    (v : ProofValidator α) (userOrder : List α) : ValidationResult α :=
  if userOrder.length = 0 then
    { isCorrect := false
      score := 0
      feedback := "Please arrange the proof blocks to create a valid proof."
      details := .emptyOrder v.solutionOrder.length 0 0 v.solutionOrder.length 0
      hints := none }
  else
    let blockValidation := v.validateBlockIds userOrder
    if blockValidation.isValid = false then
      { isCorrect := false
        score := 0
        feedback := "Error: Some blocks don't belong to the current puzzle \"" ++
          v.puzzle.title ++ "\". Please refresh the page."
        details := .puzzleMismatch v.solutionOrder.length 0 userOrder.length
          v.solutionOrder.length userOrder.length blockValidation.invalidBlocks
        hints := some [] }
    else
      let result := v.analyzeSequence userOrder
      { isCorrect := result.isComplete && result.correctSequence
        score := ProofValidator.calculateScore result
        feedback := ProofValidator.generateFeedback result
        details := .analysis result
        hints := some (v.generateHints result userOrder) }

/-! ### Basic lemmas about the embedded primitives -/

theorem listHas_iff {α : Type} [DecidableEq α] (l : List α) (a : α) :
    listHas l a = true ↔ a ∈ l := by
  simp [listHas]

theorem mem_jsSetOfList {α : Type} [DecidableEq α] (l : List α) (a : α) :
    a ∈ jsSetOfList l ↔ a ∈ l := by
  simp [jsSetOfList, List.mem_reverse, List.mem_dedup]

theorem nodup_jsSetOfList {α : Type} [DecidableEq α] (l : List α) :
    (jsSetOfList l).Nodup := by
  simp [jsSetOfList, List.nodup_reverse, List.nodup_dedup]

theorem length_jsSetOfList_le {α : Type} [DecidableEq α] (l : List α) :
    (jsSetOfList l).length ≤ l.length := by
  have h := (List.dedup_sublist l.reverse).length_le
  simpa [jsSetOfList] using h

theorem jsSetOfList_eq_self {α : Type} [DecidableEq α] {l : List α}
    (h : l.Nodup) : jsSetOfList l = l := by
  rw [jsSetOfList, List.dedup_eq_self.2 (List.nodup_reverse.2 h), List.reverse_reverse]

theorem isCorrectSeq_refl {α : Type} [DecidableEq α] (l : List α) :
    ProofValidator.isCorrectSeq l l = true := by
  induction l with
  | nil => rfl
  | cons x xs ih => simp [ProofValidator.isCorrectSeq, ih]

theorem isCorrectSeq_append {α : Type} [DecidableEq α] (l s u : List α) :
    ProofValidator.isCorrectSeq (l ++ s) (l ++ u) =
      ProofValidator.isCorrectSeq s u := by
  induction l with
  | nil => rfl
  | cons x xs ih => simp [ProofValidator.isCorrectSeq, ih]

theorem classifyPositions_cons_eq {α : Type} [DecidableEq α] (x : α)
    (us ss : List α) (i : Nat) :
    ProofValidator.classifyPositions i (x :: us) (x :: ss) =
      ((⟨x, i⟩ : PosOk α) :: (ProofValidator.classifyPositions (i + 1) us ss).1,
       (ProofValidator.classifyPositions (i + 1) us ss).2) := by
  simp [ProofValidator.classifyPositions]

theorem classifyPositions_cons_ne {α : Type} [DecidableEq α] {x y : α}
    (h : x ≠ y) (us ss : List α) (i : Nat) :
    ProofValidator.classifyPositions i (x :: us) (y :: ss) =
      ((ProofValidator.classifyPositions (i + 1) us ss).1,
       (⟨x, i, y⟩ : PosBad α) :: (ProofValidator.classifyPositions (i + 1) us ss).2) := by
  simp [ProofValidator.classifyPositions, h]

theorem classifyPositions_self {α : Type} [DecidableEq α] (l : List α) (i : Nat) :
    (ProofValidator.classifyPositions i l l).2 = [] ∧
    (ProofValidator.classifyPositions i l l).1.length = l.length := by
  induction l generalizing i with
  | nil => simp [ProofValidator.classifyPositions]
  | cons x xs ih =>
    rw [classifyPositions_cons_eq]
    simp [(ih (i + 1)).1, (ih (i + 1)).2]

theorem classifyPositions_append {α : Type} [DecidableEq α] (l u s : List α) (i : Nat) :
    (ProofValidator.classifyPositions i (l ++ u) (l ++ s)).1.length =
      l.length + (ProofValidator.classifyPositions (i + l.length) u s).1.length ∧
    (ProofValidator.classifyPositions i (l ++ u) (l ++ s)).2 =
      (ProofValidator.classifyPositions (i + l.length) u s).2 := by
  induction l generalizing i with
  | nil => simp
  | cons x xs ih =>
    have h := ih (i + 1)
    have e : i + 1 + xs.length = i + (xs.length + 1) := by omega
    rw [e] at h
    rw [List.cons_append, List.cons_append, classifyPositions_cons_eq]
    refine ⟨?_, ?_⟩
    · simp only [List.length_cons, h.1]
      omega
    · simpa using h.2

theorem classifyPositions_fst_length_le_right {α : Type} [DecidableEq α]
    (u s : List α) (i : Nat) :
    (ProofValidator.classifyPositions i u s).1.length ≤ s.length := by
  induction u generalizing s i with
  | nil => simp [ProofValidator.classifyPositions]
  | cons x xs ih =>
    cases s with
    | nil => simp [ProofValidator.classifyPositions]
    | cons y ys =>
      simp only [ProofValidator.classifyPositions]
      by_cases h : x = y
      · simp only [if_pos h, List.length_cons]
        exact Nat.succ_le_succ (ih ys (i + 1))
      · simp only [if_neg h, List.length_cons]
        exact Nat.le_succ_of_le (ih ys (i + 1))

/-! ### Branch lemmas for `validateProof` -/

theorem ProofValidator.validateProof_nil {α : Type} [DecidableEq α]
    (v : ProofValidator α) :
    v.validateProof [] =
      { isCorrect := false
        score := 0
        feedback := "Please arrange the proof blocks to create a valid proof."
        details := .emptyOrder v.solutionOrder.length 0 0 v.solutionOrder.length 0
        hints := none } := by
  rfl

theorem ProofValidator.validateProof_mismatch {α : Type} [DecidableEq α]
    (v : ProofValidator α) (u : List α) (h1 : u.length ≠ 0)
    (h2 : (v.validateBlockIds u).isValid = false) :
    v.validateProof u =
      { isCorrect := false
        score := 0
        feedback := "Error: Some blocks don't belong to the current puzzle \"" ++
          v.puzzle.title ++ "\". Please refresh the page."
        details := .puzzleMismatch v.solutionOrder.length 0 u.length
          v.solutionOrder.length u.length (v.validateBlockIds u).invalidBlocks
        hints := some [] } := by
  rw [ProofValidator.validateProof, if_neg h1]
  simp [h2]

theorem ProofValidator.validateProof_main {α : Type} [DecidableEq α]
    (v : ProofValidator α) (u : List α) (h1 : u.length ≠ 0)
    (h2 : (v.validateBlockIds u).isValid = true) :
    v.validateProof u =
      { isCorrect := (v.analyzeSequence u).isComplete &&
          (v.analyzeSequence u).correctSequence
        score := ProofValidator.calculateScore (v.analyzeSequence u)
        feedback := ProofValidator.generateFeedback (v.analyzeSequence u)
        details := .analysis (v.analyzeSequence u)
        hints := some (v.generateHints (v.analyzeSequence u) u) } := by
  rw [ProofValidator.validateProof, if_neg h1]
  simp only [h2]
  simp

/-- The check `validateBlockIds` reports invalid exactly when some submitted id is
foreign to the block catalog. -/
theorem ProofValidator.isValid_eq_false_iff {α : Type} [DecidableEq α]
    (v : ProofValidator α) (u : List α) :
    (v.validateBlockIds u).isValid = false ↔
      ∃ i ∈ u, i ∉ v.puzzle.blocks.map Block.id := by
  simp only [ProofValidator.validateBlockIds, beq_iff_eq, beq_eq_false_iff_ne, ne_eq,
    List.length_eq_zero]
  constructor
  · intro h
    rcases List.exists_mem_of_ne_nil _ h with ⟨a, ha⟩
    rcases List.mem_filter.1 ha with ⟨hau, hp⟩
    refine ⟨a, hau, ?_⟩
    simp only [Bool.not_eq_true', listHas_iff] at hp
    simp only [listHas, mem_jsSetOfList] at hp
    simpa using hp
  · rintro ⟨a, hau, ha⟩ hnil
    have : a ∈ u.filter (fun i => !(listHas (jsSetOfList (v.puzzle.blocks.map Block.id)) i)) := by
      rw [List.mem_filter]
      refine ⟨hau, ?_⟩
      simp [listHas, mem_jsSetOfList, ha]
    rw [hnil] at this
    simp at this

/-! ### Rounding lemmas -/

theorem jsRound_intCast (n : ℤ) : jsRound (n : ℚ) = n := by
  rw [jsRound]
  rw [Int.floor_eq_iff]
  constructor
  · linarith
  · linarith

theorem jsRound_eq_of_bounds (q : ℚ) (n : ℤ) (h1 : (n : ℚ) ≤ q + 1 / 2)
    (h2 : q + 1 / 2 < n + 1) : jsRound q = n := by
  rw [jsRound]
  exact Int.floor_eq_iff.2 ⟨h1, by linarith⟩

theorem jsRound_le_jsRound {q r : ℚ} (h : q ≤ r) : jsRound q ≤ jsRound r := by
  exact Int.floor_le_floor (by linarith)

theorem jsRound_lt (q : ℚ) (n : ℤ) (h : q + 1 / 2 < n) : jsRound q < n := by
  rw [jsRound]
  exact Int.floor_lt.2 (by exact_mod_cast h)

/-! ### Field lemmas for `_analyzeSequence` -/

theorem analyze_totalBlocks {α : Type} [DecidableEq α] (v : ProofValidator α)
    (u : List α) : (v.analyzeSequence u).totalBlocks = v.solutionOrder.length :=
  rfl

theorem analyze_correctlyPositioned {α : Type} [DecidableEq α] (v : ProofValidator α)
    (u : List α) : (v.analyzeSequence u).correctlyPositioned =
      (ProofValidator.classifyPositions 0 u v.solutionOrder).1 :=
  rfl

theorem analyze_incorrectlyPositioned {α : Type} [DecidableEq α] (v : ProofValidator α)
    (u : List α) : (v.analyzeSequence u).incorrectlyPositioned =
      (ProofValidator.classifyPositions 0 u v.solutionOrder).2 :=
  rfl

theorem analyze_correctBlocks_def {α : Type} [DecidableEq α] (v : ProofValidator α)
    (u : List α) : (v.analyzeSequence u).correctBlocks =
      ((jsSetOfList u).filter (fun i => listHas (jsSetOfList v.solutionOrder) i)).length :=
  rfl

theorem analyze_extraBlocks_def {α : Type} [DecidableEq α] (v : ProofValidator α)
    (u : List α) : (v.analyzeSequence u).extraBlocks =
      ((jsSetOfList u).filter (fun i => !(listHas (jsSetOfList v.solutionOrder) i))).length :=
  rfl

theorem analyze_missingBlocks_def {α : Type} [DecidableEq α] (v : ProofValidator α)
    (u : List α) : (v.analyzeSequence u).missingBlocks =
      ((jsSetOfList v.solutionOrder).filter (fun i => !(listHas (jsSetOfList u) i))).length :=
  rfl

theorem analyze_isComplete_def {α : Type} [DecidableEq α] (v : ProofValidator α)
    (u : List α) : (v.analyzeSequence u).isComplete =
      (u.length == v.solutionOrder.length &&
        (v.analyzeSequence u).missingBlocks == 0 &&
        (v.analyzeSequence u).extraBlocks == 0) :=
  rfl

theorem analyze_correctSequence_def {α : Type} [DecidableEq α] (v : ProofValidator α)
    (u : List α) : (v.analyzeSequence u).correctSequence =
      ((v.analyzeSequence u).isComplete &&
        ProofValidator.isCorrectSeq v.solutionOrder u) :=
  rfl

theorem analyze_extraBlocks_eq_zero {α : Type} [DecidableEq α]
    {v : ProofValidator α} {u : List α} (h : ∀ a ∈ u, a ∈ v.solutionOrder) :
    (v.analyzeSequence u).extraBlocks = 0 := by
  rw [analyze_extraBlocks_def, List.length_eq_zero, List.filter_eq_nil_iff]
  intro a ha
  have : a ∈ u := (mem_jsSetOfList u a).1 ha
  simp [listHas, mem_jsSetOfList, h a this]

theorem analyze_missingBlocks_eq_zero {α : Type} [DecidableEq α]
    {v : ProofValidator α} {u : List α} (h : ∀ a ∈ v.solutionOrder, a ∈ u) :
    (v.analyzeSequence u).missingBlocks = 0 := by
  rw [analyze_missingBlocks_def, List.length_eq_zero, List.filter_eq_nil_iff]
  intro a ha
  have : a ∈ v.solutionOrder := (mem_jsSetOfList _ a).1 ha
  simp [listHas, mem_jsSetOfList, h a this]

theorem analyze_correctBlocks_le {α : Type} [DecidableEq α]
    (v : ProofValidator α) (u : List α) :
    (v.analyzeSequence u).correctBlocks ≤ v.solutionOrder.length := by
  rw [analyze_correctBlocks_def]
  have hnd : ((jsSetOfList u).filter
      (fun i => listHas (jsSetOfList v.solutionOrder) i)).Nodup :=
    (nodup_jsSetOfList u).filter _
  have hsub : (jsSetOfList u).filter
      (fun i => listHas (jsSetOfList v.solutionOrder) i) ⊆
      jsSetOfList v.solutionOrder := by
    intro a ha
    exact (listHas_iff _ _).1 (List.mem_filter.1 ha).2
  exact le_trans (hnd.subperm hsub).length_le (length_jsSetOfList_le _)

theorem analyze_correctBlocks_eq_length {α : Type} [DecidableEq α]
    {v : ProofValidator α} {u : List α} (hnd : u.Nodup)
    (h : ∀ a ∈ u, a ∈ v.solutionOrder) :
    (v.analyzeSequence u).correctBlocks = u.length := by
  rw [analyze_correctBlocks_def, jsSetOfList_eq_self hnd]
  have : u.filter (fun i => listHas (jsSetOfList v.solutionOrder) i) = u := by
    rw [List.filter_eq_self]
    intro a ha
    simp [listHas, mem_jsSetOfList, h a ha]
  rw [this]

theorem analyze_isComplete_true {α : Type} [DecidableEq α]
    {v : ProofValidator α} {u : List α} (hlen : u.length = v.solutionOrder.length)
    (hm : (v.analyzeSequence u).missingBlocks = 0)
    (he : (v.analyzeSequence u).extraBlocks = 0) :
    (v.analyzeSequence u).isComplete = true := by
  rw [analyze_isComplete_def, hm, he, hlen]
  simp

theorem analyze_correctSequence_false {α : Type} [DecidableEq α]
    {v : ProofValidator α} {u : List α}
    (h : ProofValidator.isCorrectSeq v.solutionOrder u = false) :
    (v.analyzeSequence u).correctSequence = false := by
  rw [analyze_correctSequence_def, h]
  simp

theorem analyze_correctSequence_true {α : Type} [DecidableEq α]
    {v : ProofValidator α} {u : List α}
    (hc : (v.analyzeSequence u).isComplete = true)
    (h : ProofValidator.isCorrectSeq v.solutionOrder u = true) :
    (v.analyzeSequence u).correctSequence = true := by
  rw [analyze_correctSequence_def, hc, h]
  rfl

/-! ### Projection corollaries of the `validateProof` branch lemmas -/

theorem ProofValidator.validateProof_score_main {α : Type} [DecidableEq α]
    (v : ProofValidator α) (u : List α) (h1 : u.length ≠ 0)
    (h2 : (v.validateBlockIds u).isValid = true) :
    (v.validateProof u).score = ProofValidator.calculateScore (v.analyzeSequence u) := by
  rw [ProofValidator.validateProof_main v u h1 h2]

theorem ProofValidator.validateProof_isCorrect_main {α : Type} [DecidableEq α]
    (v : ProofValidator α) (u : List α) (h1 : u.length ≠ 0)
    (h2 : (v.validateBlockIds u).isValid = true) :
    (v.validateProof u).isCorrect =
      ((v.analyzeSequence u).isComplete && (v.analyzeSequence u).correctSequence) := by
  rw [ProofValidator.validateProof_main v u h1 h2]

theorem ProofValidator.validateProof_hints_main {α : Type} [DecidableEq α]
    (v : ProofValidator α) (u : List α) (h1 : u.length ≠ 0)
    (h2 : (v.validateBlockIds u).isValid = true) :
    (v.validateProof u).hints =
      some (v.generateHints (v.analyzeSequence u) u) := by
  rw [ProofValidator.validateProof_main v u h1 h2]

theorem ProofValidator.validateProof_details_main {α : Type} [DecidableEq α]
    (v : ProofValidator α) (u : List α) (h1 : u.length ≠ 0)
    (h2 : (v.validateBlockIds u).isValid = true) :
    (v.validateProof u).details = .analysis (v.analyzeSequence u) := by
  rw [ProofValidator.validateProof_main v u h1 h2]

/-- Computes `_calculateScore` on a non-correct analysis from rational bounds
on the raw (pre-rounding) score. -/
theorem calculateScore_eq {α : Type} (r : Analysis α) (n : ℤ)
    (hc : r.correctSequence = false) (hn : 0 ≤ n)
    (h1 : (n : ℚ) ≤ ((r.correctlyPositioned.length : ℚ) / (r.totalBlocks : ℚ)) * 60 +
      ((r.correctBlocks : ℚ) / (r.totalBlocks : ℚ)) * 40 -
      min ((r.extraBlocks : ℚ) * 5) 20 + 1 / 2)
    (h2 : ((r.correctlyPositioned.length : ℚ) / (r.totalBlocks : ℚ)) * 60 +
      ((r.correctBlocks : ℚ) / (r.totalBlocks : ℚ)) * 40 -
      min ((r.extraBlocks : ℚ) * 5) 20 + 1 / 2 < n + 1) :
    ProofValidator.calculateScore r = n := by
  rw [ProofValidator.calculateScore, if_neg (by simp [hc])]
  dsimp only
  rw [jsRound_eq_of_bounds _ n (by linarith) (by linarith)]
  exact max_eq_right hn

/-! ### Concrete puzzles used in the examples -/

/-- The four-block example puzzle of the spec (canonical order a,b,c,d). -/
def puzzle4 : Puzzle String :=
  { id := "p4"
    title := "Example"
    blocks := [⟨"a", "A"⟩, ⟨"b", "B"⟩, ⟨"c", "C"⟩, ⟨"d", "D"⟩]
    solutionOrder := ["a", "b", "c", "d"] }

/-- A two-block puzzle (canonical order a,b). -/
def puzzle2 : Puzzle String :=
  { id := "p2"
    title := "Pair"
    blocks := [⟨"a", "A"⟩, ⟨"b", "B"⟩]
    solutionOrder := ["a", "b"] }

/-- A degenerate puzzle: empty catalog and empty canonical order. -/
def badPuzzle : Puzzle String :=
  { id := "p0"
    title := "Empty"
    blocks := []
    solutionOrder := [] }

/-! ### Claims -/

/-- C8: for every puzzle, `validateProof` on the empty learner order returns
score 0, `isCorrect = false` and the fixed prompt feedback.  The embedded
function is total, which models "no exception". -/
theorem claim_C8_empty_order {α : Type} [DecidableEq α] (p : Puzzle α) :
    ((ProofValidator.make p).validateProof []).score = 0 ∧
    ((ProofValidator.make p).validateProof []).isCorrect = false ∧
    ((ProofValidator.make p).validateProof []).feedback =
      "Please arrange the proof blocks to create a valid proof." := by
  rw [ProofValidator.validateProof_nil]
  exact ⟨rfl, rfl, rfl⟩

/-- C2 counterexample: the empty puzzle is malformed in the claim's sense,
yet the constructor succeeds and the resulting validator operates normally
(`validateProof` answers the empty order with the standard prompt result):
construction does not fail, refuting the claim. -/
theorem claim_C2_counterexample :
    ¬ badPuzzle.wellFormed ∧
    (ProofValidator.make badPuzzle).solutionOrder = badPuzzle.solutionOrder ∧
    ((ProofValidator.make badPuzzle).validateProof []).score = 0 ∧
    ((ProofValidator.make badPuzzle).validateProof []).feedback =
      "Please arrange the proof blocks to create a valid proof." :=
  ⟨by decide, rfl, rfl, rfl⟩

/-- C2 amended: constructing a `ProofValidator` never fails; the constructor
performs no validation, stores the puzzle data unchanged even when the puzzle
is malformed (non-bijective, duplicate ids, or empty), and the resulting
validator still operates (`validateProof` returns a normal result). -/
theorem claim_C2_amended {α : Type} [DecidableEq α] (p : Puzzle α)
    (_hmal : ¬ p.wellFormed) :
    (ProofValidator.make p).puzzle = p ∧
    (ProofValidator.make p).solutionOrder = p.solutionOrder ∧
    ((ProofValidator.make p).validateProof []).score = 0 ∧
    ((ProofValidator.make p).validateProof []).isCorrect = false :=
  ⟨rfl, rfl, rfl, rfl⟩

/-- Witness for C2 amended, at the empty puzzle. -/
theorem claim_C2_witness :
    (ProofValidator.make badPuzzle).puzzle = badPuzzle ∧
    (ProofValidator.make badPuzzle).solutionOrder = badPuzzle.solutionOrder ∧
    ((ProofValidator.make badPuzzle).validateProof []).score = 0 ∧
    ((ProofValidator.make badPuzzle).validateProof []).isCorrect = false :=
  claim_C2_amended badPuzzle (by decide)

/-- C1 counterexample: for the two-block puzzle and the learner order
`[a, z]` (`z` foreign), `validateProof` returns score 0 and
`isCorrect = false`, but the hint list is empty — not a single
`error`-kind hint as the claim states. -/
theorem claim_C1_counterexample :
    ((ProofValidator.make puzzle2).validateProof ["a", "z"]).score = 0 ∧
    ((ProofValidator.make puzzle2).validateProof ["a", "z"]).isCorrect = false ∧
    ((ProofValidator.make puzzle2).validateProof ["a", "z"]).hints = some [] := by
  decide

/-- C1 amended: any learner order containing a foreign id yields score 0,
`isCorrect = false`, and an *empty* hint list (the mismatch branch of
`validateProof` returns `hints: []` without calling `_generateHints`). -/
theorem claim_C1_amended {α : Type} [DecidableEq α] (p : Puzzle α) (u : List α)
    (h : ∃ i ∈ u, i ∉ p.blocks.map Block.id) :
    ((ProofValidator.make p).validateProof u).score = 0 ∧
    ((ProofValidator.make p).validateProof u).isCorrect = false ∧
    ((ProofValidator.make p).validateProof u).hints = some [] := by
  have hne : u.length ≠ 0 := by
    rcases h with ⟨i, hi, _⟩
    cases u with
    | nil => simp at hi
    | cons x xs => simp
  have hf : ((ProofValidator.make p).validateBlockIds u).isValid = false :=
    (ProofValidator.isValid_eq_false_iff _ _).2 h
  rw [ProofValidator.validateProof_mismatch _ _ hne hf]
  exact ⟨rfl, rfl, rfl⟩

/-- Witness for C1 amended, at the four-block puzzle with foreign id `q`. -/
theorem claim_C1_witness :
    ((ProofValidator.make puzzle4).validateProof ["a", "b", "q"]).score = 0 ∧
    ((ProofValidator.make puzzle4).validateProof ["a", "b", "q"]).isCorrect = false ∧
    ((ProofValidator.make puzzle4).validateProof ["a", "b", "q"]).hints = some [] :=
  claim_C1_amended puzzle4 ["a", "b", "q"] (by decide)

/-- C3: with canonical order `[a, b]` and learner order `[a, b, a]` (a
duplicate of a valid id), `validateProof` scores 100 while
`isCorrect = false`: score 100 does not imply a correct solution. -/
theorem claim_C3_duplicate_score_100 :
    ((ProofValidator.make puzzle2).validateProof ["a", "b", "a"]).score = 100 ∧
    ((ProofValidator.make puzzle2).validateProof ["a", "b", "a"]).isCorrect = false := by
  constructor
  · rw [ProofValidator.validateProof_score_main _ _ (by decide) (by decide)]
    have hA : (ProofValidator.make puzzle2).analyzeSequence ["a", "b", "a"] =
        { totalBlocks := 2
          userBlocks := 3
          correctBlocks := 2
          extraBlocks := 0
          missingBlocks := 0
          isComplete := false
          correctSequence := false
          correctlyPositioned := [⟨"a", 0⟩, ⟨"b", 1⟩]
          incorrectlyPositioned := []
          duplicates := [⟨"a", 2⟩] } := by decide
    rw [hA]
    exact calculateScore_eq _ 100 rfl (by norm_num)
      (by norm_num [min_def]) (by norm_num [min_def])
  · decide

/-- C5: the spec's worked example — canonical `[a,b,c,d]`, learner order
`[a,c,b,d]`: `a` and `d` correctly positioned, `c`/`b` swapped (with a `c@1`
expecting `b` and a `b@2` expecting `c` record), score 70,
`isCorrect = false`, and the single hint is a `position` hint naming
1-indexed position 2 and carrying fragment `b`. -/
theorem claim_C5_swap_example :
    ((ProofValidator.make puzzle4).validateProof ["a", "c", "b", "d"]).details =
      .analysis
        { totalBlocks := 4
          userBlocks := 4
          correctBlocks := 4
          extraBlocks := 0
          missingBlocks := 0
          isComplete := true
          correctSequence := false
          correctlyPositioned := [⟨"a", 0⟩, ⟨"d", 3⟩]
          incorrectlyPositioned := [⟨"c", 1, "b"⟩, ⟨"b", 2, "c"⟩]
          duplicates := [] } ∧
    ((ProofValidator.make puzzle4).validateProof ["a", "c", "b", "d"]).score = 70 ∧
    ((ProofValidator.make puzzle4).validateProof ["a", "c", "b", "d"]).isCorrect = false ∧
    ((ProofValidator.make puzzle4).validateProof ["a", "c", "b", "d"]).hints =
      some [{ type := "position"
              message := "The block at position 2 should be:"
              latex := "B"
              blockId := none
              position := some 1
              expectedBlockId := some "b" }] := by
  refine ⟨by decide, ?_, by decide, by decide⟩
  rw [ProofValidator.validateProof_score_main _ _ (by decide) (by decide)]
  have hA : (ProofValidator.make puzzle4).analyzeSequence ["a", "c", "b", "d"] =
      { totalBlocks := 4
        userBlocks := 4
        correctBlocks := 4
        extraBlocks := 0
        missingBlocks := 0
        isComplete := true
        correctSequence := false
        correctlyPositioned := [⟨"a", 0⟩, ⟨"d", 3⟩]
        incorrectlyPositioned := [⟨"c", 1, "b"⟩, ⟨"b", 2, "c"⟩]
        duplicates := [] } := by decide
  rw [hA]
  exact calculateScore_eq _ 70 rfl (by norm_num)
    (by norm_num [min_def]) (by norm_num [min_def])

/-- C10: the spec's partial example — canonical `[a,b,c,d]`, learner order
`[a,b]`: two missing blocks, incomplete, `a@0`/`b@1` correctly positioned,
score 50; the hints are a `missing` hint for `c` followed by a `missing`
hint for `d`, and no `next` hint appears (the next expected block `c` is
already used by the missing-hint pass). -/
theorem claim_C10_missing_example :
    ((ProofValidator.make puzzle4).validateProof ["a", "b"]).details =
      .analysis
        { totalBlocks := 4
          userBlocks := 2
          correctBlocks := 2
          extraBlocks := 0
          missingBlocks := 2
          isComplete := false
          correctSequence := false
          correctlyPositioned := [⟨"a", 0⟩, ⟨"b", 1⟩]
          incorrectlyPositioned := []
          duplicates := [] } ∧
    ((ProofValidator.make puzzle4).validateProof ["a", "b"]).score = 50 ∧
    ((ProofValidator.make puzzle4).validateProof ["a", "b"]).hints =
      some [{ type := "missing"
              message := "You're missing this important step:"
              latex := "C"
              blockId := some "c" },
            { type := "missing"
              message := "Consider this step:"
              latex := "D"
              blockId := some "d" }] ∧
    ((((ProofValidator.make puzzle4).validateProof ["a", "b"]).hints.getD []).filter
      (fun x => x.type == "next")) = [] := by
  refine ⟨by decide, ?_, by decide, by decide⟩
  rw [ProofValidator.validateProof_score_main _ _ (by decide) (by decide)]
  have hA : (ProofValidator.make puzzle4).analyzeSequence ["a", "b"] =
      { totalBlocks := 4
        userBlocks := 2
        correctBlocks := 2
        extraBlocks := 0
        missingBlocks := 2
        isComplete := false
        correctSequence := false
        correctlyPositioned := [⟨"a", 0⟩, ⟨"b", 1⟩]
        incorrectlyPositioned := []
        duplicates := [] } := by decide
  rw [hA]
  exact calculateScore_eq _ 50 rfl (by norm_num)
    (by norm_num [min_def]) (by norm_num [min_def])

/-- C7: for every well-formed puzzle, validating the canonical order itself
returns `isCorrect = true`, score 100 and an empty hint list. -/
theorem claim_C7_canonical_order {α : Type} [DecidableEq α] (p : Puzzle α)
    (hwf : p.wellFormed) :
    ((ProofValidator.make p).validateProof p.solutionOrder).isCorrect = true ∧
    ((ProofValidator.make p).validateProof p.solutionOrder).score = 100 ∧
    ((ProofValidator.make p).validateProof p.solutionOrder).hints = some [] := by
  obtain ⟨hne, _hnd, _hbnd, hsb, _hbs⟩ := hwf
  have hlen : p.solutionOrder.length ≠ 0 := by
    intro h
    exact hne (List.length_eq_zero.1 h)
  have hvalid : ((ProofValidator.make p).validateBlockIds p.solutionOrder).isValid = true := by
    cases hv : ((ProofValidator.make p).validateBlockIds p.solutionOrder).isValid
    · exfalso
      rcases (ProofValidator.isValid_eq_false_iff _ _).1 hv with ⟨i, hi, hni⟩
      exact hni (hsb i hi)
    · rfl
  have hm : ((ProofValidator.make p).analyzeSequence p.solutionOrder).missingBlocks = 0 :=
    analyze_missingBlocks_eq_zero (fun a ha => ha)
  have he : ((ProofValidator.make p).analyzeSequence p.solutionOrder).extraBlocks = 0 :=
    analyze_extraBlocks_eq_zero (fun a ha => ha)
  have hcpl : ((ProofValidator.make p).analyzeSequence p.solutionOrder).isComplete = true :=
    analyze_isComplete_true rfl hm he
  have hcs : ((ProofValidator.make p).analyzeSequence p.solutionOrder).correctSequence = true :=
    analyze_correctSequence_true hcpl (isCorrectSeq_refl _)
  refine ⟨?_, ?_, ?_⟩
  · rw [ProofValidator.validateProof_isCorrect_main _ _ hlen hvalid, hcpl, hcs]
    rfl
  · rw [ProofValidator.validateProof_score_main _ _ hlen hvalid,
      ProofValidator.calculateScore, if_pos hcs]
  · rw [ProofValidator.validateProof_hints_main _ _ hlen hvalid,
      ProofValidator.generateHints, if_pos hcs]

/-- Witness for C7, at the four-block example puzzle. -/
theorem claim_C7_witness :
    ((ProofValidator.make puzzle4).validateProof puzzle4.solutionOrder).isCorrect = true ∧
    ((ProofValidator.make puzzle4).validateProof puzzle4.solutionOrder).score = 100 ∧
    ((ProofValidator.make puzzle4).validateProof puzzle4.solutionOrder).hints = some [] :=
  claim_C7_canonical_order puzzle4 (by decide)

/-- The score from `_calculateScore` never returns a negative value. -/
theorem calculateScore_nonneg {α : Type} (r : Analysis α) :
    0 ≤ ProofValidator.calculateScore r := by
  rw [ProofValidator.calculateScore]
  split
  · norm_num
  · exact le_max_left 0 _

/-- The score from `_calculateScore` is at most 100 whenever the analysis counts are within
range of the (positive) total. -/
theorem calculateScore_le_100 {α : Type} (r : Analysis α)
    (hn : 0 < r.totalBlocks)
    (hcp : r.correctlyPositioned.length ≤ r.totalBlocks)
    (hcb : r.correctBlocks ≤ r.totalBlocks) :
    ProofValidator.calculateScore r ≤ 100 := by
  rw [ProofValidator.calculateScore]
  split
  · exact le_refl 100
  · dsimp only
    apply max_le (by norm_num)
    have hnQ : (0 : ℚ) < (r.totalBlocks : ℚ) := by exact_mod_cast hn
    have hcpQ : (r.correctlyPositioned.length : ℚ) ≤ (r.totalBlocks : ℚ) := by
      exact_mod_cast hcp
    have hcbQ : (r.correctBlocks : ℚ) ≤ (r.totalBlocks : ℚ) := by exact_mod_cast hcb
    have e1 : ((r.correctlyPositioned.length : ℚ) / (r.totalBlocks : ℚ)) * 60 ≤ 60 := by
      rw [div_mul_eq_mul_div, div_le_iff₀ hnQ]
      linarith
    have e2 : ((r.correctBlocks : ℚ) / (r.totalBlocks : ℚ)) * 40 ≤ 40 := by
      rw [div_mul_eq_mul_div, div_le_iff₀ hnQ]
      linarith
    have e3 : (0 : ℚ) ≤ min ((r.extraBlocks : ℚ) * 5) 20 :=
      le_min (by positivity) (by norm_num)
    refine le_trans (jsRound_le_jsRound ?_) (le_of_eq (by simpa using jsRound_intCast 100))
    linarith

/-- C9: for every well-formed puzzle and every learner order, the score is
an integer (it has type `ℤ` in the embedding) between 0 and 100. -/
theorem claim_C9_score_range {α : Type} [DecidableEq α] (p : Puzzle α)
    (hwf : p.wellFormed) (u : List α) :
    0 ≤ ((ProofValidator.make p).validateProof u).score ∧
    ((ProofValidator.make p).validateProof u).score ≤ 100 := by
  obtain ⟨hne, _, _, _, _⟩ := hwf
  have hn : 0 < p.solutionOrder.length := List.length_pos.2 hne
  by_cases h0 : u.length = 0
  · have hu : u = [] := List.length_eq_zero.1 h0
    rw [hu, ProofValidator.validateProof_nil]
    exact ⟨le_refl 0, by norm_num⟩
  · by_cases hval : ((ProofValidator.make p).validateBlockIds u).isValid = true
    · rw [ProofValidator.validateProof_score_main _ _ h0 hval]
      refine ⟨calculateScore_nonneg _, calculateScore_le_100 _ ?_ ?_ ?_⟩
      · rw [analyze_totalBlocks]
        exact hn
      · rw [analyze_correctlyPositioned, analyze_totalBlocks]
        exact classifyPositions_fst_length_le_right u _ 0
      · rw [analyze_totalBlocks]
        exact analyze_correctBlocks_le _ u
    · have hf : ((ProofValidator.make p).validateBlockIds u).isValid = false := by
        revert hval
        cases ((ProofValidator.make p).validateBlockIds u).isValid <;> simp
      rw [ProofValidator.validateProof_mismatch _ _ h0 hf]
      exact ⟨le_refl 0, by norm_num⟩

/-- Witness for C9, at the four-block puzzle with a scrambled short order. -/
theorem claim_C9_witness :
    0 ≤ ((ProofValidator.make puzzle4).validateProof ["c", "a"]).score ∧
    ((ProofValidator.make puzzle4).validateProof ["c", "a"]).score ≤ 100 :=
  claim_C9_score_range puzzle4 (by decide) ["c", "a"]

/-! ### The adjacent-swap analysis (claim C4) -/

theorem ProofValidator.make_solutionOrder {α : Type} (p : Puzzle α) :
    (ProofValidator.make p).solutionOrder = p.solutionOrder :=
  rfl

theorem ProofValidator.make_puzzle {α : Type} (p : Puzzle α) :
    (ProofValidator.make p).puzzle = p :=
  rfl

theorem ProofValidator.isValid_eq_true_of_forall {α : Type} [DecidableEq α]
    (v : ProofValidator α) (u : List α)
    (h : ∀ i ∈ u, i ∈ v.puzzle.blocks.map Block.id) :
    (v.validateBlockIds u).isValid = true := by
  cases hv : (v.validateBlockIds u).isValid
  · exfalso
    rcases (ProofValidator.isValid_eq_false_iff v u).1 hv with ⟨i, hi, hni⟩
    exact hni (h i hi)
  · rfl

theorem isCorrectSeq_cons_ne {α : Type} [DecidableEq α] {x y : α} (h : y ≠ x)
    (ss us : List α) :
    ProofValidator.isCorrectSeq (x :: ss) (y :: us) = false := by
  simp [ProofValidator.isCorrectSeq, h]

theorem isCorrectSeq_swap_false {α : Type} [DecidableEq α] (pre suf : List α)
    {x y : α} (hxy : x ≠ y) :
    ProofValidator.isCorrectSeq (pre ++ x :: y :: suf) (pre ++ y :: x :: suf) = false := by
  rw [isCorrectSeq_append]
  simp [ProofValidator.isCorrectSeq, Ne.symm hxy]

theorem classifyPositions_swap_length {α : Type} [DecidableEq α] (pre suf : List α)
    {x y : α} (hxy : x ≠ y) :
    (ProofValidator.classifyPositions 0 (pre ++ y :: x :: suf)
      (pre ++ x :: y :: suf)).1.length = pre.length + suf.length := by
  have h := classifyPositions_append pre (y :: x :: suf) (x :: y :: suf) 0
  rw [h.1, classifyPositions_cons_ne (Ne.symm hxy), classifyPositions_cons_ne hxy]
  simp [(classifyPositions_self suf _).2]

/-- The `_calculateScore` bound for a full permutation with two mismatched
positions: for totals up to 239, the rounded score stays below 100. -/
theorem calculateScore_lt_100_two_off {α : Type} (r : Analysis α) (L : ℕ)
    (hc : r.correctSequence = false)
    (hcp : r.correctlyPositioned.length = L)
    (htot : r.totalBlocks = L + 2)
    (hcb : r.correctBlocks ≤ r.totalBlocks)
    (hext : r.extraBlocks = 0)
    (hsize : r.totalBlocks ≤ 239) :
    ProofValidator.calculateScore r < 100 := by
  rw [ProofValidator.calculateScore, if_neg (by simp [hc])]
  dsimp only
  apply max_lt (by norm_num)
  apply jsRound_lt
  have hcbN : r.correctBlocks ≤ L + 2 := htot ▸ hcb
  have hLN : L + 2 ≤ 239 := htot ▸ hsize
  have hcbQ : (r.correctBlocks : ℚ) ≤ (L : ℚ) + 2 := by exact_mod_cast hcbN
  have hLQ : (L : ℚ) + 2 ≤ 239 := by exact_mod_cast hLN
  have hpos : (0 : ℚ) < (L : ℚ) + 2 := by positivity
  rw [hcp, htot, hext]
  push_cast
  rw [div_mul_eq_mul_div, div_mul_eq_mul_div, div_add_div_same]
  have hmin : min ((0 : ℚ) * 5) 20 = 0 := by norm_num
  rw [hmin, sub_zero]
  have hA : ((L : ℚ) * 60 + (r.correctBlocks : ℚ) * 40) / ((L : ℚ) + 2) < 199 / 2 := by
    rw [div_lt_iff₀ hpos]
    linarith
  linarith

/-- C4 amended: swapping two adjacent distinct entries of the canonical
order always yields `isCorrect = false`, and — provided the puzzle has at
most 239 fragments — a score strictly below 100. -/
theorem claim_C4_amended {α : Type} [DecidableEq α] (p : Puzzle α)
    (pre suf : List α) (x y : α) (hxy : x ≠ y)
    (hsol : p.solutionOrder = pre ++ x :: y :: suf)
    (hsize : p.solutionOrder.length ≤ 239) :
    ((ProofValidator.make p).validateProof (pre ++ y :: x :: suf)).score < 100 ∧
    ((ProofValidator.make p).validateProof (pre ++ y :: x :: suf)).isCorrect = false := by
  have hulen : (pre ++ y :: x :: suf).length ≠ 0 := by simp
  by_cases hval : ((ProofValidator.make p).validateBlockIds (pre ++ y :: x :: suf)).isValid = true
  · have hseq : ProofValidator.isCorrectSeq (ProofValidator.make p).solutionOrder
        (pre ++ y :: x :: suf) = false := by
      rw [ProofValidator.make_solutionOrder, hsol]
      exact isCorrectSeq_swap_false pre suf hxy
    have hcsf : ((ProofValidator.make p).analyzeSequence
        (pre ++ y :: x :: suf)).correctSequence = false :=
      analyze_correctSequence_false hseq
    constructor
    · rw [ProofValidator.validateProof_score_main _ _ hulen hval]
      apply calculateScore_lt_100_two_off _ (pre.length + suf.length) hcsf
      · rw [analyze_correctlyPositioned, ProofValidator.make_solutionOrder, hsol]
        exact classifyPositions_swap_length pre suf hxy
      · rw [analyze_totalBlocks, ProofValidator.make_solutionOrder, hsol]
        simp
        omega
      · rw [analyze_totalBlocks]
        exact analyze_correctBlocks_le _ _
      · apply analyze_extraBlocks_eq_zero
        intro a ha
        rw [ProofValidator.make_solutionOrder, hsol]
        simp only [List.mem_append, List.mem_cons] at ha ⊢
        tauto
      · rw [analyze_totalBlocks, ProofValidator.make_solutionOrder]
        exact hsize
    · rw [ProofValidator.validateProof_isCorrect_main _ _ hulen hval, hcsf]
      simp
  · have hf : ((ProofValidator.make p).validateBlockIds (pre ++ y :: x :: suf)).isValid = false := by
      revert hval
      cases ((ProofValidator.make p).validateBlockIds (pre ++ y :: x :: suf)).isValid <;> simp
    rw [ProofValidator.validateProof_mismatch _ _ hulen hf]
    exact ⟨by norm_num, rfl⟩

/-- Witness for C4 amended: swapping `a` and `b` in the four-block puzzle
scores below 100 and is not correct. -/
theorem claim_C4_witness :
    ((ProofValidator.make puzzle4).validateProof ["b", "a", "c", "d"]).score < 100 ∧
    ((ProofValidator.make puzzle4).validateProof ["b", "a", "c", "d"]).isCorrect = false :=
  claim_C4_amended puzzle4 [] ["c", "d"] "a" "b" (by decide) rfl (by decide)

/-- The tail `[2, …, 240]` of the 241-fragment counterexample puzzle. -/
def bigSuf : List ℕ :=
  (List.range 239).map (fun i => i + 2)

/-- Canonical order `[0, 1, 2, …, 240]` of the counterexample puzzle. -/
def bigSol : List ℕ :=
  0 :: 1 :: bigSuf

/-- A 241-fragment puzzle (ids `0..240`, empty LaTeX payloads). -/
def bigPuzzle : Puzzle ℕ :=
  { id := "big"
    title := "Big"
    blocks := bigSol.map (fun i => ⟨i, ""⟩)
    solutionOrder := bigSol }

/-- The learner order swapping the first two entries of `bigSol`. -/
def bigUser : List ℕ :=
  1 :: 0 :: bigSuf

theorem bigSuf_nodup : bigSuf.Nodup :=
  (List.nodup_range 239).map (fun a b h => by omega)

theorem bigSuf_ge_two : ∀ a ∈ bigSuf, 2 ≤ a := by
  intro a ha
  rcases List.mem_map.1 ha with ⟨i, _, rfl⟩
  omega

theorem bigUser_nodup : bigUser.Nodup := by
  rw [bigUser]
  refine List.nodup_cons.2 ⟨?_, List.nodup_cons.2 ⟨?_, bigSuf_nodup⟩⟩
  · intro h
    rcases List.mem_cons.1 h with h1 | h1
    · omega
    · have := bigSuf_ge_two 1 h1
      omega
  · intro h
    have := bigSuf_ge_two 0 h
    omega

theorem mem_bigUser_iff (a : ℕ) : a ∈ bigUser ↔ a ∈ bigSol := by
  rw [bigUser, bigSol]
  simp only [List.mem_cons]
  tauto

theorem bigSuf_length : bigSuf.length = 239 := by
  rw [bigSuf]
  simp

theorem bigPuzzle_block_ids : bigPuzzle.blocks.map Block.id = bigSol := by
  rw [bigPuzzle]
  simp [List.map_map]
  exact List.map_id bigSol

/-- C4 counterexample: for the 241-fragment puzzle, the learner order that
swaps the two adjacent (distinct) entries `0` and `1` of the canonical order
still receives score 100 (the raw score `239/241·60 + 40 ≈ 99.502` rounds
up), refuting "score strictly less than 100"; `isCorrect` is still false. -/
theorem claim_C4_counterexample :
    ((ProofValidator.make bigPuzzle).validateProof bigUser).score = 100 ∧
    ((ProofValidator.make bigPuzzle).validateProof bigUser).isCorrect = false := by
  have hulen : bigUser.length ≠ 0 := by
    rw [bigUser]
    simp
  have hval : ((ProofValidator.make bigPuzzle).validateBlockIds bigUser).isValid = true := by
    apply ProofValidator.isValid_eq_true_of_forall
    intro i hi
    rw [ProofValidator.make_puzzle, bigPuzzle_block_ids]
    exact (mem_bigUser_iff i).1 hi
  have hseq : ProofValidator.isCorrectSeq (ProofValidator.make bigPuzzle).solutionOrder
      bigUser = false := by
    rw [ProofValidator.make_solutionOrder]
    show ProofValidator.isCorrectSeq (0 :: 1 :: bigSuf) (1 :: 0 :: bigSuf) = false
    exact isCorrectSeq_cons_ne (by omega) _ _
  have hcsf : ((ProofValidator.make bigPuzzle).analyzeSequence bigUser).correctSequence = false :=
    analyze_correctSequence_false hseq
  have hcp : ((ProofValidator.make bigPuzzle).analyzeSequence bigUser).correctlyPositioned.length
      = 239 := by
    rw [analyze_correctlyPositioned, ProofValidator.make_solutionOrder]
    show (ProofValidator.classifyPositions 0 bigUser bigPuzzle.solutionOrder).1.length = 239
    have e1 : bigUser = 1 :: 0 :: bigSuf := rfl
    have e2 : bigPuzzle.solutionOrder = 0 :: 1 :: bigSuf := rfl
    rw [e1, e2, classifyPositions_cons_ne (by omega), classifyPositions_cons_ne (by omega)]
    simp [(classifyPositions_self bigSuf _).2, bigSuf_length]
  have htot : ((ProofValidator.make bigPuzzle).analyzeSequence bigUser).totalBlocks = 241 := by
    rw [analyze_totalBlocks, ProofValidator.make_solutionOrder]
    show bigSol.length = 241
    rw [bigSol]
    simp [bigSuf_length]
  have hcb : ((ProofValidator.make bigPuzzle).analyzeSequence bigUser).correctBlocks = 241 := by
    have := analyze_correctBlocks_eq_length (v := ProofValidator.make bigPuzzle)
      bigUser_nodup (fun a ha => (mem_bigUser_iff a).1 ha)
    rw [this, bigUser]
    simp [bigSuf_length]
  have hext : ((ProofValidator.make bigPuzzle).analyzeSequence bigUser).extraBlocks = 0 :=
    analyze_extraBlocks_eq_zero (fun a ha => (mem_bigUser_iff a).1 ha)
  constructor
  · rw [ProofValidator.validateProof_score_main _ _ hulen hval]
    apply calculateScore_eq _ 100 hcsf (by norm_num)
    · rw [hcp, htot, hcb, hext]
      norm_num [min_def]
    · rw [hcp, htot, hcb, hext]
      norm_num [min_def]
  · rw [ProofValidator.validateProof_isCorrect_main _ _ hulen hval, hcsf]
    simp

/-! ### Hint-generation invariants (claim C6) -/

/-- Invariant carried through the hint pipeline: the referenced fragment ids
are pairwise distinct and all recorded in the used set. -/
def HintInv {α : Type} [DecidableEq α] (hs : List (Hint α)) (used : List α) : Prop :=
  (hs.filterMap Hint.refId).Nodup ∧ ∀ a ∈ hs.filterMap Hint.refId, a ∈ used

theorem HintInv.nil {α : Type} [DecidableEq α] : HintInv ([] : List (Hint α)) [] :=
  ⟨List.nodup_nil, by simp⟩

theorem HintInv.push {α : Type} [DecidableEq α] {hs : List (Hint α)} {used : List α}
    (inv : HintInv hs used) {i : α} {h : Hint α}
    (hr : Hint.refId h = some i) (hi : listHas used i = false) :
    HintInv (hs ++ [h]) (used ++ [i]) := by
  have hnotin : i ∉ used := by
    intro hmem
    rw [(listHas_iff used i).2 hmem] at hi
    cases hi
  have hfm : (hs ++ [h]).filterMap Hint.refId = hs.filterMap Hint.refId ++ [i] := by
    rw [List.filterMap_append]
    simp [List.filterMap_cons, hr]
  constructor
  · rw [hfm, List.nodup_append]
    refine ⟨inv.1, List.nodup_singleton i, ?_⟩
    intro a ha hb
    rw [List.mem_singleton] at hb
    exact hnotin (hb ▸ inv.2 a ha)
  · intro a ha
    rw [hfm] at ha
    rcases List.mem_append.1 ha with h1 | h1
    · exact List.mem_append.2 (Or.inl (inv.2 a h1))
    · rw [List.mem_singleton] at h1
      exact List.mem_append.2 (Or.inr (by simp [h1]))

theorem positionHintStep_cases {α : Type} [DecidableEq α] (v : ProofValidator α)
    (r : Analysis α) (hs : List (Hint α)) (used : List α) :
    ProofValidator.positionHintStep v r hs used = (hs, used) ∨
    ∃ i h, Hint.refId h = some i ∧ listHas used i = false ∧
      ProofValidator.positionHintStep v r hs used = (hs ++ [h], used ++ [i]) := by
  rw [ProofValidator.positionHintStep]
  split
  · exact Or.inl rfl
  next fe rest _hip =>
    split
    · exact Or.inl rfl
    next eb _hm =>
      split
      · exact Or.inl rfl
      next hu =>
        refine Or.inr ⟨fe.expectedBlockId, _, ?_, ?_, rfl⟩
        · rfl
        · revert hu
          cases listHas used fe.expectedBlockId <;> simp

theorem findFirstMissing_not_used {α : Type} [DecidableEq α] (v : ProofValidator α)
    (user used : List α) {i : α} {b : Block α}
    (h : ProofValidator.findFirstMissing v user used = some (i, b)) :
    listHas used i = false := by
  rw [ProofValidator.findFirstMissing] at h
  rcases List.exists_of_findSome?_eq_some h with ⟨a, _ha, hfa⟩
  by_cases hc : (!(listHas user a) && !(listHas used a)) = true
  · rw [if_pos hc] at hfa
    rcases Option.map_eq_some'.1 hfa with ⟨b', _, heq⟩
    cases heq
    simp only [Bool.and_eq_true, Bool.not_eq_true'] at hc
    exact hc.2
  · rw [if_neg hc] at hfa
    cases hfa

theorem missingHintStep_cases {α : Type} [DecidableEq α] (v : ProofValidator α)
    (r : Analysis α) (u : List α) (hs : List (Hint α)) (used : List α) :
    ProofValidator.missingHintStep v r u hs used = (hs, used) ∨
    ∃ i h, Hint.refId h = some i ∧ listHas used i = false ∧
      ProofValidator.missingHintStep v r u hs used = (hs ++ [h], used ++ [i]) := by
  rw [ProofValidator.missingHintStep]
  split
  · split
    · exact Or.inl rfl
    next i b hfm =>
      refine Or.inr ⟨i, _, ?_, findFirstMissing_not_used v u used hfm, rfl⟩
      rfl
  · exact Or.inl rfl

theorem nextHintStep_cases {α : Type} [DecidableEq α] (v : ProofValidator α)
    (u : List α) (hs : List (Hint α)) (used : List α) :
    ProofValidator.nextHintStep v u hs used = (hs, used) ∨
    ∃ i h, Hint.refId h = some i ∧ listHas used i = false ∧
      ProofValidator.nextHintStep v u hs used = (hs ++ [h], used ++ [i]) := by
  rw [ProofValidator.nextHintStep]
  split
  · split
    · exact Or.inl rfl
    next nextExpected _hne =>
      split
      · exact Or.inl rfl
      next hu =>
        split
        · exact Or.inl rfl
        next nb _hm =>
          refine Or.inr ⟨nextExpected, _, ?_, ?_, rfl⟩
          · rfl
          · revert hu
            cases listHas used nextExpected <;> simp
  · exact Or.inl rfl

theorem positionHintStep_inv {α : Type} [DecidableEq α] (v : ProofValidator α)
    (r : Analysis α) {hs : List (Hint α)} {used : List α} (inv : HintInv hs used) :
    HintInv (ProofValidator.positionHintStep v r hs used).1
      (ProofValidator.positionHintStep v r hs used).2 := by
  rcases positionHintStep_cases v r hs used with h | ⟨i, hh, hr, hi, h⟩
  · rw [h]
    exact inv
  · rw [h]
    exact inv.push hr hi

theorem missingHintStep_inv {α : Type} [DecidableEq α] (v : ProofValidator α)
    (r : Analysis α) (u : List α) {hs : List (Hint α)} {used : List α}
    (inv : HintInv hs used) :
    HintInv (ProofValidator.missingHintStep v r u hs used).1
      (ProofValidator.missingHintStep v r u hs used).2 := by
  rcases missingHintStep_cases v r u hs used with h | ⟨i, hh, hr, hi, h⟩
  · rw [h]
    exact inv
  · rw [h]
    exact inv.push hr hi

theorem nextHintStep_inv {α : Type} [DecidableEq α] (v : ProofValidator α)
    (u : List α) {hs : List (Hint α)} {used : List α} (inv : HintInv hs used) :
    HintInv (ProofValidator.nextHintStep v u hs used).1
      (ProofValidator.nextHintStep v u hs used).2 := by
  rcases nextHintStep_cases v u hs used with h | ⟨i, hh, hr, hi, h⟩
  · rw [h]
    exact inv
  · rw [h]
    exact inv.push hr hi

theorem positionHintStep_length {α : Type} [DecidableEq α] (v : ProofValidator α)
    (r : Analysis α) (hs : List (Hint α)) (used : List α) :
    (ProofValidator.positionHintStep v r hs used).1.length ≤ hs.length + 1 := by
  rcases positionHintStep_cases v r hs used with h | ⟨i, hh, _, _, h⟩ <;> rw [h] <;> simp

theorem missingHintStep_length {α : Type} [DecidableEq α] (v : ProofValidator α)
    (r : Analysis α) (u : List α) (hs : List (Hint α)) (used : List α) :
    (ProofValidator.missingHintStep v r u hs used).1.length ≤ hs.length + 1 := by
  rcases missingHintStep_cases v r u hs used with h | ⟨i, hh, _, _, h⟩ <;> rw [h] <;> simp

theorem nextHintStep_length {α : Type} [DecidableEq α] (v : ProofValidator α)
    (u : List α) (hs : List (Hint α)) (used : List α) :
    (ProofValidator.nextHintStep v u hs used).1.length ≤ hs.length + 1 := by
  rcases nextHintStep_cases v u hs used with h | ⟨i, hh, _, _, h⟩ <;> rw [h] <;> simp

theorem fillLoop_length {α : Type} [DecidableEq α] (v : ProofValidator α)
    (ids : List α) (hs : List (Hint α)) (h : hs.length ≤ 3) :
    (ProofValidator.fillLoop v ids hs).length ≤ 3 := by
  induction ids generalizing hs with
  | nil => exact h
  | cons i rest ih =>
    rw [ProofValidator.fillLoop]
    by_cases h3 : hs.length < 3
    · rw [if_pos h3]
      cases jsMapGet v.blockMap i with
      | none => exact ih hs h
      | some b =>
        apply ih
        simp only [List.length_append, List.length_cons, List.length_nil]
        omega
    · rw [if_neg h3]
      exact h

theorem fillMissingStep_length {α : Type} [DecidableEq α] (v : ProofValidator α)
    (r : Analysis α) (u : List α) (hs : List (Hint α)) (used : List α)
    (h : hs.length ≤ 3) :
    (ProofValidator.fillMissingStep v r u hs used).length ≤ 3 := by
  rw [ProofValidator.fillMissingStep]
  by_cases hcond : hs.length < 3 ∧ r.missingBlocks > 0
  · rw [if_pos hcond]
    exact fillLoop_length v _ hs h
  · rw [if_neg hcond]
    exact h

theorem fillLoop_refIds {α : Type} [DecidableEq α] (v : ProofValidator α)
    (ids : List α) (hs : List (Hint α)) :
    ∃ ids', List.Sublist ids' ids ∧
      (ProofValidator.fillLoop v ids hs).filterMap Hint.refId =
        hs.filterMap Hint.refId ++ ids' := by
  induction ids generalizing hs with
  | nil => exact ⟨[], List.Sublist.refl [], by simp [ProofValidator.fillLoop]⟩
  | cons i rest ih =>
    rw [ProofValidator.fillLoop]
    by_cases h3 : hs.length < 3
    · rw [if_pos h3]
      cases jsMapGet v.blockMap i with
      | none =>
        rcases ih hs with ⟨ids', hsub, heq⟩
        exact ⟨ids', hsub.cons i, heq⟩
      | some b =>
        rcases ih (hs ++ [{ type := "missing"
                            message := "Consider this step:"
                            latex := b.latex
                            blockId := some i }]) with ⟨ids', hsub, heq⟩
        refine ⟨i :: ids', hsub.cons₂ i, ?_⟩
        rw [heq, List.filterMap_append]
        simp [List.filterMap_cons, Hint.refId]
    · rw [if_neg h3]
      exact ⟨[], List.nil_sublist _, by simp⟩

theorem fillMissingStep_refIds_nodup {α : Type} [DecidableEq α]
    (v : ProofValidator α) (r : Analysis α) (u : List α)
    {hs : List (Hint α)} {used : List α}
    (hnd : v.solutionOrder.Nodup) (inv : HintInv hs used) :
    ((ProofValidator.fillMissingStep v r u hs used).filterMap Hint.refId).Nodup := by
  rw [ProofValidator.fillMissingStep]
  by_cases hcond : hs.length < 3 ∧ r.missingBlocks > 0
  · rw [if_pos hcond]
    rcases fillLoop_refIds v
      (v.solutionOrder.filter (fun i => !(listHas u i) && !(listHas used i))) hs
      with ⟨ids', hsub, heq⟩
    rw [heq, List.nodup_append]
    refine ⟨inv.1, hsub.nodup (hnd.filter _), ?_⟩
    intro a ha hb
    have haused : a ∈ used := inv.2 a ha
    have hamem := hsub.subset hb
    rcases List.mem_filter.1 hamem with ⟨_, hpred⟩
    simp only [Bool.and_eq_true, Bool.not_eq_true'] at hpred
    rw [(listHas_iff used a).2 haused] at hpred
    cases hpred.2
  · rw [if_neg hcond]
    exact inv.1

/-- The hint list from `_generateHints` never exceeds 3 entries. -/
theorem generateHints_length_le {α : Type} [DecidableEq α] (v : ProofValidator α)
    (r : Analysis α) (u : List α) : (v.generateHints r u).length ≤ 3 := by
  rw [ProofValidator.generateHints]
  by_cases hc : r.correctSequence = true
  · rw [if_pos hc]
    simp
  · rw [if_neg hc]
    by_cases hv : (v.validateBlockIds u).isValid = false
    · rw [if_pos hv]
      simp
    · rw [if_neg hv]
      dsimp only
      apply fillMissingStep_length
      have l1 := positionHintStep_length v r [] []
      have l2 := missingHintStep_length v r u (ProofValidator.positionHintStep v r [] []).1
        (ProofValidator.positionHintStep v r [] []).2
      have l3 := nextHintStep_length v u
        (ProofValidator.missingHintStep v r u (ProofValidator.positionHintStep v r [] []).1
          (ProofValidator.positionHintStep v r [] []).2).1
        (ProofValidator.missingHintStep v r u (ProofValidator.positionHintStep v r [] []).1
          (ProofValidator.positionHintStep v r [] []).2).2
      simp only [List.length_nil] at l1
      omega

/-- The hint list from `_generateHints` never references a fragment id
twice, provided the solution order is duplicate-free. -/
theorem generateHints_refIds_nodup {α : Type} [DecidableEq α] (v : ProofValidator α)
    (r : Analysis α) (u : List α) (hnd : v.solutionOrder.Nodup) :
    ((v.generateHints r u).filterMap Hint.refId).Nodup := by
  rw [ProofValidator.generateHints]
  by_cases hc : r.correctSequence = true
  · rw [if_pos hc]
    simp
  · rw [if_neg hc]
    by_cases hv : (v.validateBlockIds u).isValid = false
    · rw [if_pos hv]
      simp [ProofValidator.errorHint, Hint.refId]
    · rw [if_neg hv]
      dsimp only
      exact fillMissingStep_refIds_nodup v r u hnd
        (nextHintStep_inv v u (missingHintStep_inv v r u (positionHintStep_inv v r HintInv.nil)))

/-- C6: for every puzzle with duplicate-free canonical ids (the spec's
Puzzle invariant) and every learner order, the hint list of the validation
result has at most 3 entries and no two of its hints reference the same
fragment id. -/
theorem claim_C6_hint_cap {α : Type} [DecidableEq α] (p : Puzzle α)
    (hnd : p.solutionOrder.Nodup) (u : List α) :
    ((((ProofValidator.make p).validateProof u).hints.getD []).length ≤ 3) ∧
    (((((ProofValidator.make p).validateProof u).hints.getD []).filterMap
      Hint.refId).Nodup) := by
  by_cases h0 : u.length = 0
  · rw [List.length_eq_zero.1 h0, ProofValidator.validateProof_nil]
    simp
  · by_cases hval : ((ProofValidator.make p).validateBlockIds u).isValid = true
    · rw [ProofValidator.validateProof_hints_main _ _ h0 hval]
      simp only [Option.getD_some]
      exact ⟨generateHints_length_le _ _ _, generateHints_refIds_nodup _ _ _ hnd⟩
    · have hf : ((ProofValidator.make p).validateBlockIds u).isValid = false := by
        revert hval
        cases ((ProofValidator.make p).validateBlockIds u).isValid <;> simp
      rw [ProofValidator.validateProof_mismatch _ _ h0 hf]
      simp

/-- Witness for C6, at the four-block puzzle with a partial order. -/
theorem claim_C6_witness :
    ((((ProofValidator.make puzzle4).validateProof ["d"]).hints.getD []).length ≤ 3) ∧
    (((((ProofValidator.make puzzle4).validateProof ["d"]).hints.getD []).filterMap
      Hint.refId).Nodup) :=
  claim_C6_hint_cap puzzle4 (by decide) ["d"]

end ParsonsPuzzle
